import Mathlib

/-!
Verification of the client-tracker task-generation engine.

Modelling conventions (shallow embedding of the TypeScript source):

* A calendar date is represented by its day number (an `Int`): the number of
  days since 1970-01-01 in the proleptic Gregorian calendar.  The source passes
  dates around as `YYYY-MM-DD` strings; for well-formed strings that
  representation is in bijection with the day number, string equality is
  day-number equality, and lexicographic string comparison (`isBeforeISO`,
  `isAfterISO`, `localeCompare` on dates) is day-number comparison.  The
  functions `parseISODate` / `formatISODate` of the source are the two
  directions of this bijection and so become the identity here; the civil
  (year, month, day) view needed by the month arithmetic is recovered with
  `civilFromDays` / `daysFromCivil`.

* A JavaScript `Date` constructed as `new Date(y, m, d)` normalizes
  out-of-range fields by linear day arithmetic (it does NOT clamp): this is
  exactly `daysFromCivil y (m+1) d`, which is affine in `d`.

* `daysBetween` in the source is the floor of the millisecond difference of the
  two midnights divided by the length of a day; on whole civil dates (the only
  inputs in scope, no time zones) this is exactly the day-number difference.

* The completion ledger is a nested JavaScript object
  `{date: {clientId: {taskId: bool}}}` read through `!!` so that an absent
  entry reads as `false`.  It is modelled by its lookup function
  `Int → String → String → Bool`; the nested-object update performed by
  `toggleTask` is the pointwise update of that function.
-/

namespace ClientTracker

/-- Day number of the civil date `y-m-d` (month `1..12`, day possibly out of
range) counted from 1970-01-01, following the standard Gregorian conversion.
Out-of-range days roll linearly into adjacent months, matching the
normalization done by the JavaScript `Date` constructor. -/
def daysFromCivil (y m d : Int) : Int :=
  let y' := if m ≤ 2 then y - 1 else y
  let era := y'.fdiv 400
  let yoe := y' - era * 400
  let mp := (m + 9).emod 12
  let doy := (153 * mp + 2).fdiv 5 + d - 1
  let doe := yoe * 365 + yoe.fdiv 4 - yoe.fdiv 100 + doy
  era * 146097 + doe - 719468

/-- Civil date `(y, m, d)` (month `1..12`, day valid) of a day number, the
inverse of `daysFromCivil` on valid dates; models reading `getFullYear`,
`getMonth + 1` and `getDate` from a JavaScript `Date`. -/
def civilFromDays (z : Int) : Int × Int × Int :=
  let z' := z + 719468
  let era := z'.fdiv 146097
  let doe := z' - era * 146097
  let yoe := (doe - doe.fdiv 1460 + doe.fdiv 36524 - doe.fdiv 146096).fdiv 365
  let y := yoe + era * 400
  let doy := doe - (365 * yoe + yoe.fdiv 4 - yoe.fdiv 100)
  let mp := (5 * doy + 2).fdiv 153
  let d := doy - (153 * mp + 2).fdiv 5 + 1
  let m := if mp < 10 then mp + 3 else mp - 9
  (if m ≤ 2 then y + 1 else y, m, d)

/-- Day of week of a day number, `0 = Sunday .. 6 = Saturday`; models
`Date.getDay` (1970-01-01 was a Thursday, day 4). -/
def dayOfWeek (z : Int) : Int :=
  (z + 4).emod 7

/-- Whole days from `a` to `b`; models `daysBetween` of the source (floor of
the millisecond difference of the two midnights over 86400000), which on whole
civil dates is the day-number difference. -/
def daysBetween (a b : Int) : Int := b - a

/-- Date `n` days after `iso`; models `addDaysISO` of the source. -/
def addDaysISO (iso : Int) (days : Int) : Int := iso + days

/-- Models `isBeforeISO` of the source: lexicographic comparison of the two
ISO strings, which on well-formed dates is day-number comparison. -/
def isBeforeISO (a b : Int) : Bool := decide (a < b)

/-- Models `getClientWeek` of the source:
`Math.max(1, Math.floor(daysBetween(start, today) / 7) + 1)`.
`Math.floor` of the real quotient is floor division `Int.fdiv`. -/
def getClientWeek (startDateISO : Int) (today : Int) : Int :=
  max 1 ((daysBetween startDateISO today).fdiv 7 + 1)

/-- Models `addMonthsToISO` of the source: split the date into civil fields,
add `months` to the zero-based month, carry into the year with
`Math.floor(targetMonth / 12)` (floor division) and
`((targetMonth % 12) + 12) % 12` (JavaScript `%` is truncating remainder,
`Int.tmod`), then rebuild with `new Date(y2, m2, day)` — which rolls an
out-of-range day linearly into the next month rather than clamping. -/
def addMonthsToISO (startISO : Int) (months : Int) : Int :=
  let c := civilFromDays startISO
  let y := c.1
  let m0 := c.2.1 - 1
  let d := c.2.2
  let targetMonth := m0 + months
  let y2 := y + targetMonth.fdiv 12
  let m2 := ((targetMonth.tmod 12) + 12).tmod 12
  daysFromCivil y2 (m2 + 1) d

/-- Program type of a client: `"12w"` (fixed 12 weeks) or `"6m"` (6 calendar
months). -/
inductive ProgramType
  | twelveWeeks
  | sixMonths
  deriving DecidableEq, Repr

/-- Goal tag of a client (cosmetic). -/
inductive ClientGoal
  | fatLoss
  | muscleGain
  deriving DecidableEq, Repr

/-- Client record.  `startDate` is the enrollment date as a day number.  The
first prototype lacks `goal` and `notes`; its functions ignore them. -/
structure Client where
  id : String
  name : String
  startDate : Int
  program : ProgramType
  goal : ClientGoal
  notes : String
  deriving DecidableEq, Repr

/-- Models `getProgramEndDateISO`: 6-month programs end at
`addMonthsToISO(start, 6)`; 12-week programs end at `start + 7 * 12` days
(`end.setDate(end.getDate() + 7 * 12)` is plain day arithmetic). -/
def getProgramEndDateISO (client : Client) : Int :=
  match client.program with
  | ProgramType.sixMonths => addMonthsToISO client.startDate 6
  | ProgramType.twelveWeeks => client.startDate + 7 * 12

/-- Models `getProgramTotalWeeks`:
`Math.max(1, Math.ceil(Math.max(1, daysBetween(start, end)) / 7))`.
For an integer `n`, `Math.ceil(n / 7)` equals `(n + 6).fdiv 7`. -/
def getProgramTotalWeeks (client : Client) : Int :=
  let endISO := getProgramEndDateISO client
  let totalDays := max 1 (daysBetween client.startDate endISO)
  max 1 ((totalDays + 6).fdiv 7)

/-- Onboarding or weekly rule: day of week `0 = Sunday .. 6 = Saturday`. -/
structure RuleOnboardingOrWeekly where
  id : String
  day : Int
  title : String
  deriving DecidableEq, Repr

/-- Week-based milestone rule: 1-based program week number. -/
structure RuleWeek where
  id : String
  week : Int
  title : String
  deriving DecidableEq, Repr

/-- The three rule collections. -/
structure TaskRules where
  onboarding : List RuleOnboardingOrWeekly
  weekly : List RuleOnboardingOrWeekly
  week : List RuleWeek
  deriving DecidableEq, Repr

/-- Kind of a generated task. -/
inductive TaskKind
  | onboarding
  | weekly
  | milestone
  | program
  deriving DecidableEq, Repr

/-- Generated (ephemeral) task. -/
structure Task where
  id : String
  title : String
  kind : TaskKind
  deriving DecidableEq, Repr

/-- Task generated from an onboarding or weekly rule: the id namespaces the
rule id (`"rule:" + rule.id` in the source). -/
def ruleTask (kind : TaskKind) (r : RuleOnboardingOrWeekly) : Task :=
  { id := "rule:" ++ r.id, title := r.title, kind := kind }

/-- Task generated from a week (milestone) rule. -/
def milestoneTask (r : RuleWeek) : Task :=
  { id := "rule:" ++ r.id, title := r.title, kind := TaskKind.milestone }

/-- Synthetic second-to-last-week program reminder of the first prototype. -/
def SECOND_LAST_WEEK_TASK_V1 : Task :=
  { id := "program:second-last-week"
  , title := "Client is on their 2nd last week — start wrapping up / renewal convo"
  , kind := TaskKind.program }

/-- Synthetic last-week program reminder of the first prototype. -/
def LAST_WEEK_TASK_V1 : Task :=
  { id := "program:last-week"
  , title := "Client is on their LAST week — final check-in + next steps"
  , kind := TaskKind.program }

/-- Synthetic second-to-last-week program reminder of the later iterations. -/
def SECOND_LAST_WEEK_TASK : Task :=
  { id := "program:second-last-week"
  , title := "Client is on their 2nd last week — reach out, check happiness, set next goal"
  , kind := TaskKind.program }

/-- Synthetic last-week program reminder of the later iterations. -/
def LAST_WEEK_TASK : Task :=
  { id := "program:last-week"
  , title := "Client is on their LAST week — review results + agree next goal / renewal"
  , kind := TaskKind.program }

/-- Models `normalizeRules`: on a well-typed rule set every field is already
an array of non-null rules, so the fallback-to-defaults and `filter(Boolean)`
steps are the identity. -/
def normalizeRules (rules : TaskRules) : TaskRules := rules

/-- Default rule set of the two page.tsx prototypes (four onboarding rules). -/
def DEFAULT_TASK_RULES_PAGE : TaskRules :=
  { onboarding :=
      [ { id := "o1", day := 6, title := "Send meal plan" }
      , { id := "o2", day := 0, title := "Check meal prep / ready to start" }
      , { id := "o3", day := 1, title := "Send \"good luck\" message" }
      , { id := "o4", day := 3, title := "Unofficial Mid-Week Check In" } ]
  , weekly :=
      [ { id := "w1", day := 3, title := "Unofficial Mid-Week Check-in" }
      , { id := "w2", day := 5, title := "Send Check-in Message" }
      , { id := "w3", day := 0, title := "Check-in" } ]
  , week := [ { id := "wk3", week := 3, title := "Send Referral Message" } ] }

/-- Default rule set of the final (Supabase) iteration: a single Week-1
onboarding rule, same weekly and week rules. -/
def DEFAULT_TASK_RULES : TaskRules :=
  { onboarding := [ { id := "o_goodluck", day := 1, title := "Send \"good luck\" message" } ]
  , weekly :=
      [ { id := "w1", day := 3, title := "Unofficial Mid-Week Check-in" }
      , { id := "w2", day := 5, title := "Send Check-in Message" }
      , { id := "w3", day := 0, title := "Check-in" } ]
  , week := [ { id := "wk3", week := 3, title := "Send Referral Message" } ] }

/-- Result of the first-prototype generator (no `upcoming` flag). -/
structure DayGen where
  week : Int
  tasks : List Task
  deriving DecidableEq, Repr

/-- Models `generateDailyTasksForClient` of the first (localStorage) prototype:
onboarding rules matching the day of week in week 1 only, then weekly rules
matching the day of week, then milestone rules matching the week number, then
the two synthetic program reminders.  Tasks are accumulated in generation
order; the loop-and-push of the source is list concatenation. -/
def generateDailyTasksForClient (client : Client) (dateISO : Int) (rules : TaskRules) : DayGen :=
  let rules := normalizeRules rules
  let day := dayOfWeek dateISO
  let week := getClientWeek client.startDate dateISO
  let onboardingTasks :=
    if week = 1 then
      (rules.onboarding.filter (fun r => r.day == day)).map
        (ruleTask TaskKind.onboarding)
    else []
  let weeklyTasks :=
    (rules.weekly.filter (fun r => r.day == day)).map
      (ruleTask TaskKind.weekly)
  let milestoneTasks :=
    (rules.week.filter (fun r => r.week == week)).map
      milestoneTask
  let totalWeeks := getProgramTotalWeeks client
  let programTasks :=
    (if week = totalWeeks - 1 then [SECOND_LAST_WEEK_TASK_V1] else []) ++
    (if week = totalWeeks then [LAST_WEEK_TASK_V1] else [])
  { week := week, tasks := onboardingTasks ++ weeklyTasks ++ milestoneTasks ++ programTasks }

/-- Result of the two later generators, with the `upcoming` flag. -/
structure GenResult where
  week : Int
  tasks : List Task
  upcoming : Bool
  deriving DecidableEq, Repr

/-- Bounded walk backwards through day numbers until the day of week matches;
the loop of `getPreviousDowBefore` runs at most 6 times when `dow` is in
`0..6`, so fuel 7 suffices. -/
def goBackToDow : Nat → Int → Int → Int
  | 0, z, _ => z
  | n + 1, z, dow => if dayOfWeek z = dow then z else goBackToDow n (z - 1) dow

/-- Models `getPreviousDowBefore` of the second prototype: the most recent
date with day-of-week `dow` strictly before `dateISO`. -/
def getPreviousDowBefore (dateISO : Int) (dow : Int) : Int :=
  goBackToDow 7 (dateISO - 1) dow

namespace V2

/-- Models `generateTasksForClientOnDate` of the second (cloud-polling)
prototype in page.tsx: for a date before enrollment it emits the Saturday and
Sunday onboarding rules on the last Saturday resp. Sunday strictly before the
start date (week 0, upcoming); otherwise onboarding in week 1, weekly rules
without any cadence override, milestones, and the program reminders. -/
def generateTasksForClientOnDate (client : Client) (dateISO : Int) (rules : TaskRules) : GenResult :=
  let rules := normalizeRules rules
  if isBeforeISO dateISO client.startDate then
    let preSatISO := getPreviousDowBefore client.startDate 6
    let preSunISO := getPreviousDowBefore client.startDate 0
    let satTasks :=
      if dateISO = preSatISO then
        (rules.onboarding.filter (fun r => r.day == 6)).map
          (ruleTask TaskKind.onboarding)
      else []
    let sunTasks :=
      if dateISO = preSunISO then
        (rules.onboarding.filter (fun r => r.day == 0)).map
          (ruleTask TaskKind.onboarding)
      else []
    { week := 0, tasks := satTasks ++ sunTasks, upcoming := true }
  else
    let day := dayOfWeek dateISO
    let week := getClientWeek client.startDate dateISO
    let onboardingTasks :=
      if week = 1 then
        (rules.onboarding.filter (fun r => r.day == day)).map
          (ruleTask TaskKind.onboarding)
      else []
    let weeklyTasks :=
      (rules.weekly.filter (fun r => r.day == day)).map
        (ruleTask TaskKind.weekly)
    let milestoneTasks :=
      (rules.week.filter (fun r => r.week == week)).map
        milestoneTask
    let totalWeeks := getProgramTotalWeeks client
    let programTasks :=
      (if week = totalWeeks - 1 then [SECOND_LAST_WEEK_TASK] else []) ++
      (if week = totalWeeks then [LAST_WEEK_TASK] else [])
    { week := week
    , tasks := onboardingTasks ++ weeklyTasks ++ milestoneTasks ++ programTasks
    , upcoming := false }

end V2

/-- Models `shouldIncludeMidWeekCheckIn` of the final iteration: weeks 1 to 4
every week, from week 5 on only even week numbers.  JavaScript `week % 2 === 0`
agrees with `Int.emod week 2 = 0` for every integer. -/
def shouldIncludeMidWeekCheckIn (week : Int) : Bool :=
  if week ≤ 4 then true else week % 2 == 0

/-- Models `generateTasksForClientOnDate` of the final (Supabase) iteration:
dates before enrollment yield week 0, no tasks, upcoming; otherwise onboarding
in week 1, weekly rules where the rule with id `"w1"` is additionally gated by
`shouldIncludeMidWeekCheckIn`, milestones, and the program reminders. -/
def generateTasksForClientOnDate (client : Client) (dateISO : Int) (rules : TaskRules) : GenResult :=
  let rules := normalizeRules rules
  if isBeforeISO dateISO client.startDate then
    { week := 0, tasks := [], upcoming := true }
  else
    let day := dayOfWeek dateISO
    let week := getClientWeek client.startDate dateISO
    let onboardingTasks :=
      if week = 1 then
        (rules.onboarding.filter (fun r => r.day == day)).map
          (ruleTask TaskKind.onboarding)
      else []
    let weeklyTasks :=
      (rules.weekly.filter
          (fun r => r.day == day && (r.id != "w1" || shouldIncludeMidWeekCheckIn week))).map
        (ruleTask TaskKind.weekly)
    let milestoneTasks :=
      (rules.week.filter (fun r => r.week == week)).map
        milestoneTask
    let totalWeeks := getProgramTotalWeeks client
    let programTasks :=
      (if week = totalWeeks - 1 then [SECOND_LAST_WEEK_TASK] else []) ++
      (if week = totalWeeks then [LAST_WEEK_TASK] else [])
    { week := week
    , tasks := onboardingTasks ++ weeklyTasks ++ milestoneTasks ++ programTasks
    , upcoming := false }

/-- Completion ledger, modelled by its lookup function: entry for
`(date, clientId, taskId)` read through `!!`, absent entries reading `false`. -/
def Completion : Type := Int → String → String → Bool

/-- Models `isChecked`: `!!completion?.[dateKey]?.[clientId]?.[taskId]`. -/
def isChecked (completion : Completion) (dateKey : Int) (clientId taskId : String) : Bool :=
  completion dateKey clientId taskId

/-- Models `toggleTask` acting on the ledger: replace the entry at
`(dateKey, clientId, taskId)` by the negation of its current looked-up value,
leaving every other entry unchanged (the source copies the two nested levels
and overwrites the one leaf). -/
def toggleTask (completion : Completion) (dateKey : Int) (clientId taskId : String) : Completion :=
  fun d c t =>
    if d = dateKey ∧ c = clientId ∧ t = taskId then
      !(completion dateKey clientId taskId)
    else completion d c t

/-- The three persistent pieces of UI state touched by the handlers. -/
structure AppState where
  clients : List Client
  taskRules : TaskRules
  completion : Completion

/-- Models the `toggleTask` click handler: it calls `setCompletion` with the
ledger update and touches neither `clients` nor `taskRules`. -/
def toggleTaskState (st : AppState) (dateKey : Int) (clientId taskId : String) : AppState :=
  { st with completion := toggleTask st.completion dateKey clientId taskId }

/-- Overdue lookback window size. -/
def OVERDUE_LOOKBACK_DAYS : Nat := 30

/-- Row of the overdue view. -/
structure OverdueRow where
  client : Client
  dateISO : Int
  week : Int
  task : Task
  deriving DecidableEq, Repr

/-- One iteration of the inner loop of `overdue` for client `c` and lookback
offset `i`: the past day is `addDaysISO dateISO (-i)`; days before the client
start date are skipped, otherwise every generated task without a done ledger
entry yields a row. -/
def overdueRowsForDay (c : Client) (dateISO : Int) (rules : TaskRules)
    (completion : Completion) (i : Nat) : List OverdueRow :=
  let dISO := addDaysISO dateISO (-(i : Int))
  if isBeforeISO dISO c.startDate then []
  else
    let res := generateTasksForClientOnDate c dISO rules
    (res.tasks.filter (fun t => !(isChecked completion dISO c.id t.id))).map
      (fun t => { client := c, dateISO := dISO, week := res.week, task := t })

/-- Comparator of the final sort of `overdue`: by date ascending
(`localeCompare` on ISO strings is day-number comparison), ties broken by
client name. -/
def overdueLE (a b : OverdueRow) : Bool :=
  if a.dateISO = b.dateISO then decide (a.client.name ≤ b.client.name)
  else decide (a.dateISO < b.dateISO)

/-- Models the `overdue` aggregation of the final iteration: for each client
row and each of the past `OVERDUE_LOOKBACK_DAYS` days strictly before
`dateISO`, collect the not-done generated tasks, then stable-sort by date
ascending and client name (JavaScript `Array.sort` is stable, as is
`List.mergeSort`). -/
def overdue (rows : List Client) (dateISO : Int) (rules : TaskRules)
    (completion : Completion) : List OverdueRow :=
  let results := rows.flatMap (fun c =>
    (List.range' 1 OVERDUE_LOOKBACK_DAYS).flatMap (overdueRowsForDay c dateISO rules completion))
  results.mergeSort overdueLE

/-- Sample client on the fixed 12-week program, enrolled at day 0. -/
def client0 : Client :=
  { id := "c1", name := "Sarah K", startDate := 0
  , program := ProgramType.twelveWeeks, goal := ClientGoal.fatLoss, notes := "" }

/-- Sample client on the 6-month program enrolled 2024-08-31, a date whose
six-month target (February) is shorter than 31 days. -/
def clientAug31 : Client :=
  { id := "c2", name := "Alex P", startDate := daysFromCivil 2024 8 31
  , program := ProgramType.sixMonths, goal := ClientGoal.muscleGain, notes := "" }

/-- C7: the program-week function is exactly
`max(1, floor(daysBetween(enroll, ref) / 7) + 1)`, is always at least 1, and
yields 1 at enrollment, 1 six days later, and 2 seven days later. -/
theorem getClientWeek_spec (e r : Int) :
    getClientWeek e r = max 1 ((daysBetween e r).fdiv 7 + 1) ∧
    1 ≤ getClientWeek e r ∧
    getClientWeek e e = 1 ∧
    getClientWeek e (e + 6) = 1 ∧
    getClientWeek e (e + 7) = 2 := by
  refine ⟨rfl, le_max_left _ _, ?_, ?_, ?_⟩
  · show max 1 ((e - e).fdiv 7 + 1) = 1
    rw [sub_self]; decide
  · show max 1 ((e + 6 - e).fdiv 7 + 1) = 1
    rw [add_sub_cancel_left]; decide
  · show max 1 ((e + 7 - e).fdiv 7 + 1) = 2
    rw [add_sub_cancel_left]; decide

/-- C6: a client on the fixed 12-week program has end date
`enrollDate + 84` days and 12 total weeks. -/
theorem program_12w_spec (c : Client) (h : c.program = ProgramType.twelveWeeks) :
    getProgramEndDateISO c = c.startDate + 84 ∧ getProgramTotalWeeks c = 12 := by
  have hend : getProgramEndDateISO c = c.startDate + 84 := by
    simp [getProgramEndDateISO, h]
  refine ⟨hend, ?_⟩
  show max 1 ((max 1 (daysBetween c.startDate (getProgramEndDateISO c)) + 6).fdiv 7) = 12
  rw [hend]
  unfold daysBetween
  rw [show c.startDate + 84 - c.startDate = (84 : Int) by ring]
  decide

/-- Closed instance of `program_12w_spec` at `client0`. -/
theorem program_12w_spec_witness :
    client0.program = ProgramType.twelveWeeks ∧
    (getProgramEndDateISO client0 = client0.startDate + 84 ∧
     getProgramTotalWeeks client0 = 12) :=
  ⟨rfl, program_12w_spec client0 rfl⟩

/-- C1: the month arithmetic does not clamp the day of month.  Adding one
month to 2024-01-31 yields 2024-03-02 (the out-of-range day 31 of February
rolls into March), not the clamped 2024-02-29 stated by the claim; adding six
months to 2024-01-31 happens to agree with the claim (2024-07-31, July has 31
days); and the 6-month program end date for an enrollment on 2024-08-31 is
2025-03-03, not the clamped 2025-02-28. -/
theorem addMonthsToISO_rolls_over :
    civilFromDays (addMonthsToISO (daysFromCivil 2024 1 31) 1) = (2024, 3, 2) ∧
    civilFromDays (addMonthsToISO (daysFromCivil 2024 1 31) 6) = (2024, 7, 31) ∧
    civilFromDays (getProgramEndDateISO clientAug31) = (2025, 3, 3) := by
  decide

/-- C9: toggling the same ledger entry twice restores the looked-up done flag
of every key to its original value. -/
theorem toggleTask_toggleTask (completion : Completion) (dk : Int) (ci ti : String)
    (d : Int) (c t : String) :
    isChecked (toggleTask (toggleTask completion dk ci ti) dk ci ti) d c t =
      isChecked completion d c t := by
  unfold isChecked toggleTask
  by_cases h : d = dk ∧ c = ci ∧ t = ti
  · obtain ⟨h1, h2, h3⟩ := h
    subst h1; subst h2; subst h3
    simp
  · simp [h]

/-- C10: the toggle handler changes nothing but the one ledger entry it names:
clients and rules are untouched and every other ledger key reads as before. -/
theorem toggleTaskState_frame (st : AppState) (dk : Int) (ci ti : String) :
    (toggleTaskState st dk ci ti).clients = st.clients ∧
    (toggleTaskState st dk ci ti).taskRules = st.taskRules ∧
    ∀ d c t, ¬(d = dk ∧ c = ci ∧ t = ti) →
      isChecked (toggleTaskState st dk ci ti).completion d c t =
        isChecked st.completion d c t := by
  refine ⟨rfl, rfl, ?_⟩
  intro d c t h
  unfold toggleTaskState isChecked toggleTask
  simp [h]

/-- Sample app state for the frame witness. -/
def st0 : AppState :=
  { clients := [client0], taskRules := DEFAULT_TASK_RULES, completion := fun _ _ _ => false }

/-- Closed instance of `toggleTaskState_frame`: key `(1, "a", "t")` differs
from the toggled key `(0, "b", "t")` and reads unchanged. -/
theorem toggleTaskState_frame_witness :
    ¬((1 : Int) = 0 ∧ "a" = "b" ∧ "t" = "t") ∧
    isChecked (toggleTaskState st0 0 "b" "t").completion 1 "a" "t" =
      isChecked st0.completion 1 "a" "t" :=
  ⟨by decide, (toggleTaskState_frame st0 0 "b" "t").2.2 1 "a" "t" (by decide)⟩

/-- Membership in an if-guarded singleton list. -/
theorem mem_ite_singleton {α : Type} {p : Prop} [Decidable p] {a b : α} :
    (a ∈ if p then [b] else []) ↔ p ∧ a = b := by
  split <;> simp_all

/-- Kind of a rule task. -/
@[simp] theorem ruleTask_kind (k : TaskKind) (r : RuleOnboardingOrWeekly) :
    (ruleTask k r).kind = k := rfl

/-- Kind of a milestone task. -/
@[simp] theorem milestoneTask_kind (r : RuleWeek) :
    (milestoneTask r).kind = TaskKind.milestone := rfl

/-- C2: neither cited generator ever emits an onboarding task when the
computed program week is 2 or greater, regardless of day-of-week matches. -/
theorem no_onboarding_after_week_one (c : Client) (d : Int) (rules : TaskRules) :
    (2 ≤ (generateDailyTasksForClient c d rules).week →
      ∀ t ∈ (generateDailyTasksForClient c d rules).tasks, t.kind ≠ TaskKind.onboarding) ∧
    (2 ≤ (generateTasksForClientOnDate c d rules).week →
      ∀ t ∈ (generateTasksForClientOnDate c d rules).tasks, t.kind ≠ TaskKind.onboarding) := by
  constructor
  · intro h t ht
    have hwk : (generateDailyTasksForClient c d rules).week = getClientWeek c.startDate d := rfl
    rw [hwk] at h
    have hne : ¬ getClientWeek c.startDate d = 1 := by omega
    simp only [generateDailyTasksForClient, normalizeRules] at ht
    rw [if_neg hne] at ht
    simp only [List.nil_append, List.mem_append, List.mem_map, mem_ite_singleton] at ht
    rcases ht with (⟨r, _, rfl⟩ | ⟨r, _, rfl⟩) | (⟨_, rfl⟩ | ⟨_, rfl⟩) <;>
      simp [SECOND_LAST_WEEK_TASK_V1, LAST_WEEK_TASK_V1]
  · intro h t ht
    cases hb : isBeforeISO d c.startDate
    · have hwk : (generateTasksForClientOnDate c d rules).week = getClientWeek c.startDate d := by
        simp [generateTasksForClientOnDate, normalizeRules, hb]
      rw [hwk] at h
      have hne : ¬ getClientWeek c.startDate d = 1 := by omega
      simp only [generateTasksForClientOnDate, normalizeRules, hb, Bool.false_eq_true,
        if_false] at ht
      rw [if_neg hne] at ht
      simp only [List.nil_append, List.mem_append, List.mem_map, mem_ite_singleton] at ht
      rcases ht with (⟨r, _, rfl⟩ | ⟨r, _, rfl⟩) | (⟨_, rfl⟩ | ⟨_, rfl⟩) <;>
        simp [SECOND_LAST_WEEK_TASK, LAST_WEEK_TASK]
    · have hwk : (generateTasksForClientOnDate c d rules).week = 0 := by
        simp [generateTasksForClientOnDate, normalizeRules, hb]
      rw [hwk] at h
      omega

/-- Closed instance of `no_onboarding_after_week_one` at week 3 (day 14 after
enrollment): both generators emit no onboarding task. -/
theorem no_onboarding_after_week_one_witness :
    (2 ≤ (generateDailyTasksForClient client0 14 DEFAULT_TASK_RULES).week ∧
      ∀ t ∈ (generateDailyTasksForClient client0 14 DEFAULT_TASK_RULES).tasks,
        t.kind ≠ TaskKind.onboarding) ∧
    (2 ≤ (generateTasksForClientOnDate client0 14 DEFAULT_TASK_RULES).week ∧
      ∀ t ∈ (generateTasksForClientOnDate client0 14 DEFAULT_TASK_RULES).tasks,
        t.kind ≠ TaskKind.onboarding) :=
  ⟨⟨by decide, (no_onboarding_after_week_one client0 14 DEFAULT_TASK_RULES).1 (by decide)⟩,
   ⟨by decide, (no_onboarding_after_week_one client0 14 DEFAULT_TASK_RULES).2 (by decide)⟩⟩

/-- C4 (amended): in the final (Supabase) iteration, a query date strictly
before enrollment yields week 0, an empty task list and the upcoming flag. -/
theorem upcoming_returns_empty (c : Client) (d : Int) (rules : TaskRules)
    (h : d < c.startDate) :
    generateTasksForClientOnDate c d rules =
      { week := 0, tasks := [], upcoming := true } := by
  have hb : isBeforeISO d c.startDate = true := by simp [isBeforeISO, h]
  simp [generateTasksForClientOnDate, normalizeRules, hb]

/-- Closed instance of `upcoming_returns_empty` three days before enrollment. -/
theorem upcoming_returns_empty_witness :
    (-3 : Int) < client0.startDate ∧
    generateTasksForClientOnDate client0 (-3) DEFAULT_TASK_RULES =
      { week := 0, tasks := [], upcoming := true } :=
  ⟨by decide, upcoming_returns_empty client0 (-3) DEFAULT_TASK_RULES (by decide)⟩

/-- Client enrolled Monday 2024-01-08, used to exhibit the pre-start weekend
behaviour of the second prototype. -/
def clientPre : Client :=
  { id := "c3", name := "Pat Q", startDate := daysFromCivil 2024 1 8
  , program := ProgramType.twelveWeeks, goal := ClientGoal.fatLoss, notes := "" }

/-- C4 counterexample: the page.tsx cloud prototype does NOT return an empty
task list for every pre-enrollment date — on the Saturday before a Monday
enrollment it emits the Saturday onboarding rule as a pre-start task. -/
theorem v2_upcoming_emits_prestart_tasks :
    isBeforeISO (daysFromCivil 2024 1 6) clientPre.startDate = true ∧
    (V2.generateTasksForClientOnDate clientPre (daysFromCivil 2024 1 6)
        DEFAULT_TASK_RULES_PAGE).tasks =
      [{ id := "rule:o1", title := "Send meal plan", kind := TaskKind.onboarding }] := by
  decide

/-- Membership in an if-guarded list with empty alternative. -/
theorem mem_ite_nil {α : Type} {p : Prop} [Decidable p] {a : α} {l : List α} :
    (a ∈ if p then l else []) ↔ p ∧ a ∈ l := by
  split <;> simp_all

/-- Left cancellation for string concatenation. -/
theorem string_append_left_cancel {a b c : String} (h : a ++ b = a ++ c) : b = c := by
  have h2 := congrArg String.data h
  simp only [String.data_append] at h2
  have h3 := List.append_cancel_left h2
  cases b; cases c
  exact congrArg String.mk (by simpa using h3)

/-- Boolean cadence test unfolded to the arithmetic condition of the claim. -/
theorem shouldIncludeMidWeekCheckIn_iff (w : Int) :
    shouldIncludeMidWeekCheckIn w = true ↔ (w ≤ 4 ∨ w % 2 = 0) := by
  unfold shouldIncludeMidWeekCheckIn
  by_cases hw : w ≤ 4
  · simp [hw]
  · simp [hw]

/-- C3: on any date on or after enrollment whose day of week matches a weekly
rule with id `"w1"`, the generated tasks contain the weekly `"rule:w1"` task
exactly when the computed week is at most 4 or even. -/
theorem midweek_checkin_cadence (c : Client) (d : Int) (rules : TaskRules)
    (r : RuleOnboardingOrWeekly) (hd : c.startDate ≤ d) (hr : r ∈ rules.weekly)
    (hid : r.id = "w1") (hday : r.day = dayOfWeek d) :
    (∃ t ∈ (generateTasksForClientOnDate c d rules).tasks,
        t.id = "rule:w1" ∧ t.kind = TaskKind.weekly) ↔
      ((generateTasksForClientOnDate c d rules).week ≤ 4 ∨
        (generateTasksForClientOnDate c d rules).week % 2 = 0) := by
  have hb : isBeforeISO d c.startDate = false := by
    simp [isBeforeISO]; omega
  have hwk : (generateTasksForClientOnDate c d rules).week = getClientWeek c.startDate d := by
    simp [generateTasksForClientOnDate, normalizeRules, hb]
  rw [hwk, ← shouldIncludeMidWeekCheckIn_iff]
  constructor
  · rintro ⟨t, ht, hid', hkind⟩
    simp only [generateTasksForClientOnDate, normalizeRules, hb, Bool.false_eq_true, if_false,
      List.mem_append, List.mem_map, mem_ite_nil, List.mem_singleton] at ht
    rcases ht with ((⟨_, r', hr', rfl⟩ | ⟨r', hr', rfl⟩) | ⟨r', hr', rfl⟩) | (⟨_, rfl⟩ | ⟨_, rfl⟩)
    · simp at hkind
    · have hid2 : r'.id = "w1" := by
        have h1 : ("rule:" : String) ++ r'.id = "rule:" ++ "w1" := by
          rw [show (("rule:" : String) ++ "w1") = "rule:w1" by decide]
          exact hid'
        exact string_append_left_cancel h1
      have hc := (List.mem_filter.mp hr').2
      simp only [Bool.and_eq_true, Bool.or_eq_true, bne_iff_ne, ne_eq, beq_iff_eq] at hc
      rcases hc.2 with hne | hgood
      · exact absurd hid2 hne
      · exact hgood
    · simp at hkind
    · simp [SECOND_LAST_WEEK_TASK] at hkind
    · simp [LAST_WEEK_TASK] at hkind
  · intro hshould
    refine ⟨ruleTask TaskKind.weekly r, ?_, ?_, rfl⟩
    · simp only [generateTasksForClientOnDate, normalizeRules, hb, Bool.false_eq_true, if_false,
        List.mem_append]
      left; left; right
      exact List.mem_map_of_mem _ (List.mem_filter.mpr ⟨hr, by simp [hday, hid, hshould]⟩)
    · show ("rule:" : String) ++ r.id = "rule:w1"
      rw [hid]; decide

/-- Closed instance of `midweek_checkin_cadence`: week 5 is odd, so the
Wednesday of week 5 (day 30 after a Monday enrollment) has no mid-week
check-in, while the Wednesday of week 6 (day 37) has one.  The instance below
applies the theorem on the week-6 Wednesday. -/
theorem midweek_checkin_cadence_witness :
    (clientPre.startDate ≤ clientPre.startDate + 37 ∧
      ({ id := "w1", day := 3, title := "Unofficial Mid-Week Check-in" } : RuleOnboardingOrWeekly) ∈
        DEFAULT_TASK_RULES.weekly ∧
      ("w1" : String) = "w1" ∧
      (3 : Int) = dayOfWeek (clientPre.startDate + 37)) ∧
    ((∃ t ∈ (generateTasksForClientOnDate clientPre (clientPre.startDate + 37)
          DEFAULT_TASK_RULES).tasks,
        t.id = "rule:w1" ∧ t.kind = TaskKind.weekly) ↔
      ((generateTasksForClientOnDate clientPre (clientPre.startDate + 37)
          DEFAULT_TASK_RULES).week ≤ 4 ∨
        (generateTasksForClientOnDate clientPre (clientPre.startDate + 37)
          DEFAULT_TASK_RULES).week % 2 = 0)) :=
  ⟨⟨by decide, by decide, rfl, by decide⟩,
    midweek_checkin_cadence clientPre (clientPre.startDate + 37) DEFAULT_TASK_RULES
      { id := "w1", day := 3, title := "Unofficial Mid-Week Check-in" }
      (by decide) (by decide) rfl (by decide)⟩

/-- Explicit shape of the final-iteration generator on a date that is not
before enrollment: week is the client week, tasks are the four parts in
generation order, upcoming is false. -/
theorem tasks_eq_of_not_upcoming (c : Client) (d : Int) (rules : TaskRules)
    (hb : isBeforeISO d c.startDate = false) :
    generateTasksForClientOnDate c d rules =
      { week := getClientWeek c.startDate d
      , tasks :=
          (if getClientWeek c.startDate d = 1 then
            (rules.onboarding.filter (fun r => r.day == dayOfWeek d)).map
              (ruleTask TaskKind.onboarding)
           else []) ++
          (rules.weekly.filter (fun r =>
              r.day == dayOfWeek d &&
                (r.id != "w1" || shouldIncludeMidWeekCheckIn (getClientWeek c.startDate d)))).map
            (ruleTask TaskKind.weekly) ++
          (rules.week.filter (fun r => r.week == getClientWeek c.startDate d)).map
            milestoneTask ++
          ((if getClientWeek c.startDate d = getProgramTotalWeeks c - 1 then
              [SECOND_LAST_WEEK_TASK] else []) ++
           (if getClientWeek c.startDate d = getProgramTotalWeeks c then
              [LAST_WEEK_TASK] else []))
      , upcoming := false } := by
  simp only [generateTasksForClientOnDate, normalizeRules, hb, Bool.false_eq_true, if_false]

/-- Every task mapped from an onboarding or weekly rule carries the mapped
kind. -/
theorem kind_of_mem_map_ruleTask {t : Task} {k : TaskKind}
    {l : List RuleOnboardingOrWeekly} (h : t ∈ l.map (ruleTask k)) : t.kind = k := by
  simp only [List.mem_map] at h
  obtain ⟨r, -, rfl⟩ := h
  rfl

/-- Every task mapped from a week rule is a milestone task. -/
theorem kind_of_mem_map_milestoneTask {t : Task} {l : List RuleWeek}
    (h : t ∈ l.map milestoneTask) : t.kind = TaskKind.milestone := by
  simp only [List.mem_map] at h
  obtain ⟨r, -, rfl⟩ := h
  rfl

/-- Every task of the two if-guarded program-reminder singletons has program
kind. -/
theorem kind_of_mem_prog {t : Task} {P Q : Prop} [Decidable P] [Decidable Q]
    {A B : Task} (hA : A.kind = TaskKind.program) (hB : B.kind = TaskKind.program)
    (h : t ∈ (if P then [A] else []) ++ (if Q then [B] else [])) :
    t.kind = TaskKind.program := by
  rcases List.mem_append.mp h with h | h <;> rw [mem_ite_singleton] at h <;>
    obtain ⟨-, rfl⟩ := h <;> assumption

/-- Rule tasks built from a duplicate-free rule list whose filtered members
share one day are duplicate-free: id and title determine the rule. -/
theorem nodup_ruleTasks (rs : List RuleOnboardingOrWeekly)
    (p : RuleOnboardingOrWeekly → Bool) (k : TaskKind) (day : Int)
    (hday : ∀ r ∈ rs.filter p, r.day = day) (h : rs.Nodup) :
    ((rs.filter p).map (ruleTask k)).Nodup := by
  refine List.Nodup.map_on ?_ (h.filter p)
  intro x hx y hy hxy
  have h1 : ("rule:" : String) ++ x.id = "rule:" ++ y.id := by
    simpa [ruleTask] using congrArg Task.id hxy
  have hid := string_append_left_cancel h1
  have htitle : x.title = y.title := by
    simpa [ruleTask] using congrArg Task.title hxy
  have hdx := hday x hx
  have hdy := hday y hy
  cases x; cases y
  simp_all

/-- Milestone tasks built from a duplicate-free week-rule list filtered to one
week number are duplicate-free. -/
theorem nodup_milestoneTasks (rs : List RuleWeek) (w : Int) (h : rs.Nodup) :
    ((rs.filter (fun r => r.week == w)).map milestoneTask).Nodup := by
  refine List.Nodup.map_on ?_ (h.filter _)
  intro x hx y hy hxy
  have h1 : ("rule:" : String) ++ x.id = "rule:" ++ y.id := by
    simpa [milestoneTask] using congrArg Task.id hxy
  have hid := string_append_left_cancel h1
  have htitle : x.title = y.title := by
    simpa [milestoneTask] using congrArg Task.title hxy
  have hwx : x.week = w := by simpa using (List.mem_filter.mp hx).2
  have hwy : y.week = w := by simpa using (List.mem_filter.mp hy).2
  cases x; cases y
  simp_all

/-- Concatenation of four duplicate-free task lists of pairwise distinct kinds
is duplicate-free. -/
theorem tasks_nodup_of_parts {l1 l2 l3 l4 : List Task}
    (h1 : l1.Nodup) (h2 : l2.Nodup) (h3 : l3.Nodup) (h4 : l4.Nodup)
    (k1 : ∀ t ∈ l1, t.kind = TaskKind.onboarding)
    (k2 : ∀ t ∈ l2, t.kind = TaskKind.weekly)
    (k3 : ∀ t ∈ l3, t.kind = TaskKind.milestone)
    (k4 : ∀ t ∈ l4, t.kind = TaskKind.program) :
    (l1 ++ l2 ++ l3 ++ l4).Nodup := by
  rw [List.nodup_append, List.nodup_append, List.nodup_append]
  refine ⟨⟨⟨h1, h2, ?_⟩, h3, ?_⟩, h4, ?_⟩
  · intro t ht1 ht2
    have e1 := k1 t ht1
    have e2 := k2 t ht2
    simp_all
  · intro t ht1 ht2
    have e2 := k3 t ht2
    rcases List.mem_append.mp ht1 with h | h
    · have e1 := k1 t h; simp_all
    · have e1 := k2 t h; simp_all
  · intro t ht1 ht2
    have e2 := k4 t ht2
    rcases List.mem_append.mp ht1 with h | h
    · rcases List.mem_append.mp h with h | h
      · have e1 := k1 t h; simp_all
      · have e1 := k2 t h; simp_all
    · have e1 := k3 t h; simp_all

/-- The final-iteration generator never produces duplicate tasks when the
three rule collections are duplicate-free. -/
theorem tasks_nodup (c : Client) (d : Int) (rules : TaskRules)
    (h1 : rules.onboarding.Nodup) (h2 : rules.weekly.Nodup) (h3 : rules.week.Nodup) :
    (generateTasksForClientOnDate c d rules).tasks.Nodup := by
  cases hb : isBeforeISO d c.startDate
  · rw [tasks_eq_of_not_upcoming c d rules hb]
    refine tasks_nodup_of_parts ?_ ?_ ?_ ?_ ?_ ?_ ?_ ?_
    · by_cases hw1 : getClientWeek c.startDate d = 1
      · rw [if_pos hw1]
        refine nodup_ruleTasks _ _ _ (dayOfWeek d) ?_ h1
        intro r hr
        simpa using (List.mem_filter.mp hr).2
      · rw [if_neg hw1]; exact List.nodup_nil
    · refine nodup_ruleTasks _ _ _ (dayOfWeek d) ?_ h2
      intro r hr
      have hc := (List.mem_filter.mp hr).2
      simp only [Bool.and_eq_true, beq_iff_eq] at hc
      exact hc.1
    · exact nodup_milestoneTasks _ _ h3
    · split_ifs <;> simp <;> decide
    · intro t ht
      rw [mem_ite_nil] at ht
      exact kind_of_mem_map_ruleTask ht.2
    · intro t ht
      exact kind_of_mem_map_ruleTask ht
    · intro t ht
      exact kind_of_mem_map_milestoneTask ht
    · intro t ht
      exact kind_of_mem_prog rfl rfl ht
  · simp [generateTasksForClientOnDate, normalizeRules, hb]

/-- Client-week window: for a date on or after enrollment, the computed week
equals `N` exactly on the 7 consecutive dates of program week `N`. -/
theorem clientWeek_eq_iff (s d N : Int) (hd : s ≤ d) (hN : 1 ≤ N) :
    getClientWeek s d = N ↔ (s + 7 * (N - 1) ≤ d ∧ d ≤ s + 7 * N - 1) := by
  unfold getClientWeek daysBetween
  rw [Int.fdiv_eq_ediv _ (by norm_num)]
  omega

/-- Membership of the milestone task of a week rule, for dates on or after
enrollment: it is generated exactly when the computed week equals the rule
week (rule ids assumed unique, as the spec requires). -/
theorem milestone_mem_iff (c : Client) (d : Int) (rules : TaskRules) (r : RuleWeek)
    (hb : isBeforeISO d c.startDate = false) (hr : r ∈ rules.week)
    (hids : (rules.week.map RuleWeek.id).Nodup) :
    (milestoneTask r ∈ (generateTasksForClientOnDate c d rules).tasks ↔
      getClientWeek c.startDate d = r.week) := by
  rw [tasks_eq_of_not_upcoming c d rules hb]
  simp only [List.mem_append, List.mem_map, mem_ite_nil, List.mem_singleton, List.mem_filter]
  constructor
  · rintro (((⟨hw1, r', ⟨hr', hcond⟩, heq⟩ | ⟨r', ⟨hr', hcond⟩, heq⟩) |
        ⟨r', ⟨hr', hcond⟩, heq⟩) | (⟨hP, heq⟩ | ⟨hP, heq⟩))
    · exact absurd (congrArg Task.kind heq) (by simp [ruleTask, milestoneTask])
    · exact absurd (congrArg Task.kind heq) (by simp [ruleTask, milestoneTask])
    · have hidr : r'.id = r.id := by
        refine string_append_left_cancel (a := "rule:") ?_
        simpa [milestoneTask] using congrArg Task.id heq
      have hrr : r' = r := List.inj_on_of_nodup_map hids hr' hr hidr
      subst hrr
      have := hcond
      simp only [beq_iff_eq] at this
      omega
    · exact absurd (congrArg Task.kind heq) (by simp [milestoneTask, SECOND_LAST_WEEK_TASK])
    · exact absurd (congrArg Task.kind heq) (by simp [milestoneTask, LAST_WEEK_TASK])
  · intro hw
    left; right
    exact ⟨r, ⟨hr, by simp [hw]⟩, rfl⟩

/-- C8 (amended): for a week rule `r` with week `N ≥ 1` and unique rule ids,
on every date on or after enrollment the milestone task of `r` is generated
exactly when the computed week equals `N`; the task list holds no duplicates,
so it appears exactly once per such date; and the dates of week `N` form the
7-day window starting `7(N-1)` days after enrollment (not a single date). -/
theorem milestone_week_window (c : Client) (d : Int) (rules : TaskRules) (r : RuleWeek)
    (hd : c.startDate ≤ d) (hr : r ∈ rules.week) (hN : 1 ≤ r.week)
    (h1 : rules.onboarding.Nodup) (h2 : rules.weekly.Nodup)
    (hids : (rules.week.map RuleWeek.id).Nodup) :
    (milestoneTask r ∈ (generateTasksForClientOnDate c d rules).tasks ↔
      (generateTasksForClientOnDate c d rules).week = r.week) ∧
    (generateTasksForClientOnDate c d rules).tasks.Nodup ∧
    ((generateTasksForClientOnDate c d rules).week = r.week ↔
      (c.startDate + 7 * (r.week - 1) ≤ d ∧ d ≤ c.startDate + 7 * r.week - 1)) := by
  have hb : isBeforeISO d c.startDate = false := by
    simp [isBeforeISO]; omega
  have hwk : (generateTasksForClientOnDate c d rules).week = getClientWeek c.startDate d := by
    simp [generateTasksForClientOnDate, normalizeRules, hb]
  refine ⟨?_, tasks_nodup c d rules h1 h2 (List.Nodup.of_map _ hids), ?_⟩
  · rw [hwk]
    exact milestone_mem_iff c d rules r hb hr hids
  · rw [hwk]
    exact clientWeek_eq_iff c.startDate d r.week hd hN

/-- C8 counterexample: with the default rules, the week-3 milestone task is
generated on (at least) two distinct dates — days 14 and 15 after enrollment
both have computed week 3 — so there is no single date with
`clientWeek == N`. -/
theorem milestone_not_single_date :
    milestoneTask { id := "wk3", week := 3, title := "Send Referral Message" } ∈
      (generateTasksForClientOnDate client0 14 DEFAULT_TASK_RULES).tasks ∧
    milestoneTask { id := "wk3", week := 3, title := "Send Referral Message" } ∈
      (generateTasksForClientOnDate client0 15 DEFAULT_TASK_RULES).tasks ∧
    (14 : Int) ≠ 15 ∧
    (generateTasksForClientOnDate client0 14 DEFAULT_TASK_RULES).week = 3 ∧
    (generateTasksForClientOnDate client0 15 DEFAULT_TASK_RULES).week = 3 := by
  decide

/-- Closed instance of `milestone_week_window` at `client0`, day 14, default
rules. -/
theorem milestone_week_window_witness :
    (client0.startDate ≤ 14 ∧
      ({ id := "wk3", week := 3, title := "Send Referral Message" } : RuleWeek) ∈
        DEFAULT_TASK_RULES.week ∧
      1 ≤ ({ id := "wk3", week := 3, title := "Send Referral Message" } : RuleWeek).week ∧
      DEFAULT_TASK_RULES.onboarding.Nodup ∧
      DEFAULT_TASK_RULES.weekly.Nodup ∧
      (DEFAULT_TASK_RULES.week.map RuleWeek.id).Nodup) ∧
    ((milestoneTask { id := "wk3", week := 3, title := "Send Referral Message" } ∈
        (generateTasksForClientOnDate client0 14 DEFAULT_TASK_RULES).tasks ↔
      (generateTasksForClientOnDate client0 14 DEFAULT_TASK_RULES).week =
        ({ id := "wk3", week := 3, title := "Send Referral Message" } : RuleWeek).week) ∧
    (generateTasksForClientOnDate client0 14 DEFAULT_TASK_RULES).tasks.Nodup ∧
    ((generateTasksForClientOnDate client0 14 DEFAULT_TASK_RULES).week =
        ({ id := "wk3", week := 3, title := "Send Referral Message" } : RuleWeek).week ↔
      (client0.startDate + 7 * (({ id := "wk3", week := 3, title := "Send Referral Message" } : RuleWeek).week - 1) ≤ 14 ∧
        (14 : Int) ≤ client0.startDate + 7 * ({ id := "wk3", week := 3, title := "Send Referral Message" } : RuleWeek).week - 1))) :=
  ⟨⟨by decide, by decide, by decide, by decide, by decide, by decide⟩,
    milestone_week_window client0 14 DEFAULT_TASK_RULES
      { id := "wk3", week := 3, title := "Send Referral Message" }
      (by decide) (by decide) (by decide) (by decide) (by decide) (by decide)⟩

/-- Adding a negated lookback offset is subtraction. -/
theorem addDaysISO_neg (D : Int) (i : Nat) : addDaysISO D (-(i : Int)) = D - (i : Int) := by
  unfold addDaysISO
  omega

/-- Boolean date comparison read back as an order fact. -/
theorem isBeforeISO_false_iff {a b : Int} : isBeforeISO a b = false ↔ ¬ a < b := by
  simp [isBeforeISO]

/-- Membership characterization of one inner-loop step of `overdue`. -/
theorem mem_overdueRowsForDay {c : Client} {D : Int} {rules : TaskRules}
    {completion : Completion} {i : Nat} {row : OverdueRow} :
    row ∈ overdueRowsForDay c D rules completion i ↔
      (isBeforeISO (addDaysISO D (-(i : Int))) c.startDate = false ∧
        row.client = c ∧
        row.dateISO = addDaysISO D (-(i : Int)) ∧
        row.week = (generateTasksForClientOnDate c (addDaysISO D (-(i : Int))) rules).week ∧
        row.task ∈ (generateTasksForClientOnDate c (addDaysISO D (-(i : Int))) rules).tasks ∧
        isChecked completion (addDaysISO D (-(i : Int))) c.id row.task.id = false) := by
  unfold overdueRowsForDay
  cases hb : isBeforeISO (addDaysISO D (-(i : Int))) c.startDate
  · simp only [hb, Bool.false_eq_true, if_false, List.mem_map, List.mem_filter]
    constructor
    · rintro ⟨t, ⟨htm, hnc⟩, rfl⟩
      refine ⟨trivial, rfl, rfl, rfl, htm, ?_⟩
      simpa using hnc
    · rintro ⟨-, hcl, hdt, hwk, htm, hnc⟩
      refine ⟨row.task, ⟨htm, by simp [hnc]⟩, ?_⟩
      obtain ⟨rc, rd, rwk, rt⟩ := row
      simp_all
  · simp [hb]

/-- One inner-loop step of `overdue` yields no duplicate rows. -/
theorem nodup_overdueRowsForDay (c : Client) (D : Int) (rules : TaskRules)
    (completion : Completion) (i : Nat)
    (h1 : rules.onboarding.Nodup) (h2 : rules.weekly.Nodup) (h3 : rules.week.Nodup) :
    (overdueRowsForDay c D rules completion i).Nodup := by
  cases hb : isBeforeISO (addDaysISO D (-(i : Int))) c.startDate
  · simp only [overdueRowsForDay, hb, Bool.false_eq_true, if_false]
    refine List.Nodup.map_on ?_ (List.Nodup.filter _ (tasks_nodup c _ rules h1 h2 h3))
    intro x hx y hy hxy
    simpa using congrArg OverdueRow.task hxy
  · simp [overdueRowsForDay, hb]

/-- Transitivity of the overdue comparator. -/
theorem overdueLE_trans (a b c : OverdueRow)
    (h1 : overdueLE a b = true) (h2 : overdueLE b c = true) : overdueLE a c = true := by
  unfold overdueLE at h1 h2 ⊢
  by_cases hab : a.dateISO = b.dateISO
  · by_cases hbc : b.dateISO = c.dateISO
    · rw [if_pos hab] at h1
      rw [if_pos hbc] at h2
      rw [if_pos (hab.trans hbc)]
      simp only [decide_eq_true_eq] at h1 h2 ⊢
      exact le_trans h1 h2
    · rw [if_pos hab] at h1
      rw [if_neg hbc] at h2
      simp only [decide_eq_true_eq] at h2
      rw [if_neg (by omega : ¬ a.dateISO = c.dateISO)]
      simp only [decide_eq_true_eq]
      omega
  · by_cases hbc : b.dateISO = c.dateISO
    · rw [if_neg hab] at h1
      rw [if_pos hbc] at h2
      simp only [decide_eq_true_eq] at h1
      rw [if_neg (by omega : ¬ a.dateISO = c.dateISO)]
      simp only [decide_eq_true_eq]
      omega
    · rw [if_neg hab] at h1
      rw [if_neg hbc] at h2
      simp only [decide_eq_true_eq] at h1 h2
      rw [if_neg (by omega : ¬ a.dateISO = c.dateISO)]
      simp only [decide_eq_true_eq]
      omega

/-- Totality of the overdue comparator. -/
theorem overdueLE_total (a b : OverdueRow) : (overdueLE a b || overdueLE b a) = true := by
  unfold overdueLE
  by_cases hab : a.dateISO = b.dateISO
  · rw [if_pos hab, if_pos hab.symm]
    simp only [Bool.or_eq_true, decide_eq_true_eq]
    exact le_total a.client.name b.client.name
  · rw [if_neg hab, if_neg (fun h => hab h.symm)]
    simp only [Bool.or_eq_true, decide_eq_true_eq]
    omega

/-- Unfolding of `overdue` without the intermediate binding. -/
theorem overdue_eq (rows : List Client) (D : Int) (rules : TaskRules)
    (completion : Completion) :
    overdue rows D rules completion =
      (rows.flatMap (fun c =>
        (List.range' 1 OVERDUE_LOOKBACK_DAYS).flatMap
          (overdueRowsForDay c D rules completion))).mergeSort overdueLE := rfl

/-- C5: the overdue view holds exactly one row for every (client, past date,
task) triple with the date among the `OVERDUE_LOOKBACK_DAYS` days strictly
before the reference date, not before the client enrollment, the task
generated and not marked done in the ledger; and it is sorted by date
ascending with client name as tie-break.  Rows and rule collections are
assumed duplicate-free (the spec invariant of unique ids). -/
theorem overdue_spec (rows : List Client) (D : Int) (rules : TaskRules)
    (completion : Completion) (hrows : rows.Nodup)
    (h1 : rules.onboarding.Nodup) (h2 : rules.weekly.Nodup) (h3 : rules.week.Nodup) :
    (∀ row : OverdueRow,
      row ∈ overdue rows D rules completion ↔
        (row.client ∈ rows ∧
          D - (OVERDUE_LOOKBACK_DAYS : Int) ≤ row.dateISO ∧ row.dateISO < D ∧
          ¬ row.dateISO < row.client.startDate ∧
          row.week = (generateTasksForClientOnDate row.client row.dateISO rules).week ∧
          row.task ∈ (generateTasksForClientOnDate row.client row.dateISO rules).tasks ∧
          isChecked completion row.dateISO row.client.id row.task.id = false)) ∧
    (overdue rows D rules completion).Nodup ∧
    (overdue rows D rules completion).Pairwise (fun a b =>
      a.dateISO < b.dateISO ∨ (a.dateISO = b.dateISO ∧ a.client.name ≤ b.client.name)) := by
  have hlb : (OVERDUE_LOOKBACK_DAYS : Nat) = 30 := rfl
  refine ⟨?_, ?_, ?_⟩
  · intro row
    rw [overdue_eq, List.mem_mergeSort]
    simp only [List.mem_flatMap, List.mem_range'_1, mem_overdueRowsForDay, addDaysISO_neg,
      isBeforeISO_false_iff]
    constructor
    · rintro ⟨c, hc, i, ⟨hi1, hi2⟩, hnb, hcl, hdt, hwk, htm, hnc⟩
      subst hcl
      rw [← hdt] at hnb hwk htm hnc
      refine ⟨hc, ?_, ?_, hnb, hwk, htm, hnc⟩
      · rw [hdt]; omega
      · rw [hdt]; omega
    · rintro ⟨hc, hb1, hb2, hnb, hwk, htm, hnc⟩
      have haux : D - (((D - row.dateISO).toNat : Nat) : Int) = row.dateISO := by omega
      refine ⟨row.client, hc, (D - row.dateISO).toNat,
        ⟨by omega, by omega⟩, ?_, rfl, ?_, ?_, ?_, ?_⟩
      · rw [haux]; exact hnb
      · rw [haux]
      · rw [haux]; exact hwk
      · rw [haux]; exact htm
      · rw [haux]; exact hnc
  · rw [overdue_eq, List.Perm.nodup_iff (List.mergeSort_perm _ _)]
    rw [List.nodup_flatMap]
    constructor
    · intro c hc
      rw [List.nodup_flatMap]
      constructor
      · intro i hi
        exact nodup_overdueRowsForDay c D rules completion i h1 h2 h3
      · refine List.Pairwise.imp ?_ (List.pairwise_lt_range' 1 OVERDUE_LOOKBACK_DAYS)
        intro i j hij
        intro row hri hrj
        rw [mem_overdueRowsForDay] at hri hrj
        have e1 := hri.2.2.1
        have e2 := hrj.2.2.1
        rw [addDaysISO_neg] at e1 e2
        omega
    · refine List.Pairwise.imp ?_ hrows
      intro c1 c2 hne
      intro row hr1 hr2
      rw [List.mem_flatMap] at hr1 hr2
      obtain ⟨i, -, hi⟩ := hr1
      obtain ⟨j, -, hj⟩ := hr2
      rw [mem_overdueRowsForDay] at hi hj
      exact hne (hi.2.1.symm.trans hj.2.1)
  · rw [overdue_eq]
    refine List.Pairwise.imp ?_
      (List.sorted_mergeSort overdueLE_trans overdueLE_total _)
    intro a b hab
    unfold overdueLE at hab
    by_cases h : a.dateISO = b.dateISO
    · rw [if_pos h] at hab
      right
      exact ⟨h, by simpa using hab⟩
    · rw [if_neg h] at hab
      left
      simpa using hab

/-- Completion ledger with no entry marked done. -/
def emptyCompletion : Completion := fun _ _ _ => false

/-- Closed instance of `overdue_spec` on a one-client roster, reference day 16
after enrollment, default rules, empty ledger. -/
theorem overdue_spec_witness :
    ([client0].Nodup ∧ DEFAULT_TASK_RULES.onboarding.Nodup ∧
      DEFAULT_TASK_RULES.weekly.Nodup ∧ DEFAULT_TASK_RULES.week.Nodup) ∧
    ((∀ row : OverdueRow,
      row ∈ overdue [client0] 16 DEFAULT_TASK_RULES emptyCompletion ↔
        (row.client ∈ [client0] ∧
          16 - (OVERDUE_LOOKBACK_DAYS : Int) ≤ row.dateISO ∧ row.dateISO < 16 ∧
          ¬ row.dateISO < row.client.startDate ∧
          row.week = (generateTasksForClientOnDate row.client row.dateISO
            DEFAULT_TASK_RULES).week ∧
          row.task ∈ (generateTasksForClientOnDate row.client row.dateISO
            DEFAULT_TASK_RULES).tasks ∧
          isChecked emptyCompletion row.dateISO row.client.id row.task.id = false)) ∧
    (overdue [client0] 16 DEFAULT_TASK_RULES emptyCompletion).Nodup ∧
    (overdue [client0] 16 DEFAULT_TASK_RULES emptyCompletion).Pairwise (fun a b =>
      a.dateISO < b.dateISO ∨ (a.dateISO = b.dateISO ∧ a.client.name ≤ b.client.name))) :=
  ⟨⟨by decide, by decide, by decide, by decide⟩,
    overdue_spec [client0] 16 DEFAULT_TASK_RULES emptyCompletion
      (by decide) (by decide) (by decide) (by decide)⟩

end ClientTracker
